import Mathlib

/-!
# Verification of an LC-3 virtual machine (Rust, `src/main.rs`)

Shallow embedding of the emulator's fetch-decode-execute loop and its
helpers.  Conventions used throughout:

* 16-bit machine words are modelled as `Nat` values; wherever the Rust
  code performs `u16` arithmetic that can wrap (`+` on two `u16`s in an
  optimized build wraps two's-complement), the model reduces modulo
  `wordMod = 65536`.  Bitwise operations (`&`, `|`, `>>`, `!`) cannot
  overflow and are modelled by the corresponding `Nat` operations.
* Array indexing in Rust is bounds-checked and aborts the process on an
  out-of-range index in every build profile; the model returns
  `Except.error Err.outOfBounds` there.
* The register file is `regs : Nat → Nat` with the source's indices:
  R0..R7 are 0..7, PC is 8, COND is 9 (the `Register` enum).
* Console I/O is modelled by an input byte list and an output byte list.
-/

namespace LC3

/-- 2^16: the modulus of 16-bit (`u16`) wrapping arithmetic. -/
def wordMod : Nat := 65536

/-- Number of entries of the emulator's memory array.  The source
allocates `[0u16; 1 << 16 - 1]`; in Rust `-` binds tighter than `<<`,
so this is `1 << 15 = 32768` entries (not `65536`). -/
def memSize : Nat := 1 <<< 15

/-- The `Flag` enum: condition-flag values.  In the source
`POSITIVE = 1 << 0`, `ZERO = 1 << 1`, `NEGATIVE = 1 << 2`. -/
inductive Flag where
  | POSITIVE
  | ZERO
  | NEGATIVE
deriving DecidableEq

/-- Numeric value of a `Flag` (the `as u16` cast of the Rust enum). -/
def Flag.toNat : Flag → Nat
  | .POSITIVE => 1
  | .ZERO => 2
  | .NEGATIVE => 4

/-- `fn sign_extend(x: u16, bit_count: u8) -> u16`.
`if (x >> (bit_count - 1)) & 1 == 1 { x | (0xFFFF << bit_count) } else { x }`.
The `u16` shift `0xFFFF << bit_count` is reduced mod 2^16 (for the
`bit_count < 16` of every call site — 5, 6, 9 or 11 — this is exactly
the Rust `u16` shift). -/
def sign_extend (x : Nat) (bit_count : Nat) : Nat :=
  if (x >>> (bit_count - 1)) &&& 1 = 1 then
    x ||| ((0xFFFF <<< bit_count) % wordMod)
  else
    x

/-- `fn get_flag(r: u16) -> Flag`. -/
def get_flag (r : Nat) : Flag :=
  if r = 0 then .ZERO
  else if r >>> 15 = 1 then .NEGATIVE
  else .POSITIVE

/-- Functional update of the register file at index `i`. -/
def setReg (regs : Nat → Nat) (i v : Nat) : Nat → Nat :=
  fun j => if j = i then v else regs j

/-- `fn update_flag(registers, r)`:
`registers[COND] = get_flag(registers[r]) as u16` (COND has index 9). -/
def update_flag (regs : Nat → Nat) (r : Nat) : Nat → Nat :=
  setReg regs 9 (get_flag (regs r)).toNat

/-- The fatal aborts the emulator can hit (each is a Rust `panic!`,
i.e. an abort of the whole loop). -/
inductive Err where
  /-- `From<u16> for Opcode` default arm (unreachable for real `u16`). -/
  | invalidOpcode
  /-- the `Opcode::RTI | Opcode::RES` arm of the dispatch. -/
  | illegalOpcode
  /-- `From<u16> for Trap` default arm: vector outside 0x20..=0x25. -/
  | invalidTrap
  /-- array indexing out of bounds (the memory array has `memSize` entries). -/
  | outOfBounds
  /-- `stdin().bytes().next()` returned `None` and was `unwrap`ped. -/
  | inputExhausted
deriving DecidableEq

/-- The machine state owned by `main`: register file, memory array,
the `running` flag of the loop, and the two console streams. -/
structure Machine where
  regs : Nat → Nat
  mem : Nat → Nat
  running : Bool
  input : List Nat
  output : List Nat

/-- `memory[i]`: bounds-checked read of the memory array. -/
def readMem (mem : Nat → Nat) (i : Nat) : Except Err Nat :=
  if i < memSize then .ok (mem i) else .error .outOfBounds

/-- `memory[i] = v`: bounds-checked write of the memory array. -/
def writeMem (mem : Nat → Nat) (i v : Nat) : Except Err (Nat → Nat) :=
  if i < memSize then .ok (fun j => if j = i then v else mem j)
  else .error .outOfBounds

/-- The `Trap::PUTS` loop: `while memory[i] != 0 { print memory[i] as u8; i += 1 }`.
Returns the emitted characters together with the list of addresses the
loop read.  `fuel` only bounds the recursion; `memSize + 1` is always
enough because `i` grows by 1 per step and the loop aborts at `memSize`. -/
def putsLoopF (mem : Nat → Nat) : Nat → Nat → Except Err (List Nat × List Nat)
  | 0, _ => .error .outOfBounds
  | fuel + 1, i =>
    if i < memSize then
      if mem i = 0 then .ok ([], [i])
      else
        match putsLoopF mem fuel (i + 1) with
        | .ok (out, reads) => .ok ((mem i % 256) :: out, i :: reads)
        | .error e => .error e
    else .error .outOfBounds

/-- The `Trap::PUTSP` loop: per word, print the low byte, then the high
byte if it is nonzero; stop at a zero word. -/
def putspLoopF (mem : Nat → Nat) : Nat → Nat → Except Err (List Nat)
  | 0, _ => .error .outOfBounds
  | fuel + 1, i =>
    if i < memSize then
      if mem i = 0 then .ok []
      else
        match putspLoopF mem fuel (i + 1) with
        | .ok out =>
          .ok ((mem i % 256) ::
            ((if (mem i >>> 8) % 256 ≠ 0 then [(mem i >>> 8) % 256] else []) ++ out))
        | .error e => .error e
    else .error .outOfBounds

/-- Byte codes of the prompt `"Enter a character: "` printed by `Trap::IN`. -/
def inPrompt : List Nat :=
  [69, 110, 116, 101, 114, 32, 97, 32, 99, 104, 97, 114, 97, 99, 116, 101, 114, 58, 32]

/-- Byte codes of `"HALT\n"` printed by `Trap::HALT` (`println!`). -/
def haltMsg : List Nat := [72, 65, 76, 84, 10]

/-- The `Opcode` enum of the source (top nibble of an instruction). -/
inductive Opcode where
  | BRANCH
  | ADD
  | LOAD
  | STORE
  | JUMPR
  | AND
  | LOADR
  | STORER
  | RTI
  | NOT
  | LOADI
  | STOREI
  | JUMP
  | RES
  | LEA
  | TRAP
deriving DecidableEq

/-- `impl From<u16> for Opcode`: tags 0..15 in declaration order; any
other value aborts (unreachable for a real `u16` instruction word). -/
def opcodeOfNat (op : Nat) : Except Err Opcode :=
  if op = 0 then .ok .BRANCH
  else if op = 1 then .ok .ADD
  else if op = 2 then .ok .LOAD
  else if op = 3 then .ok .STORE
  else if op = 4 then .ok .JUMPR
  else if op = 5 then .ok .AND
  else if op = 6 then .ok .LOADR
  else if op = 7 then .ok .STORER
  else if op = 8 then .ok .RTI
  else if op = 9 then .ok .NOT
  else if op = 10 then .ok .LOADI
  else if op = 11 then .ok .STOREI
  else if op = 12 then .ok .JUMP
  else if op = 13 then .ok .RES
  else if op = 14 then .ok .LEA
  else if op = 15 then .ok .TRAP
  else .error .invalidOpcode

/-- The `Trap` enum of the source. -/
inductive Trap where
  | GETC
  | OUT
  | PUTS
  | IN
  | PUTSP
  | HALT
deriving DecidableEq

/-- `impl From<u16> for Trap`: vectors 0x20..0x25; any other vector
aborts (`Invalid trap code`). -/
def trapOfNat (t : Nat) : Except Err Trap :=
  if t = 0x20 then .ok .GETC
  else if t = 0x21 then .ok .OUT
  else if t = 0x22 then .ok .PUTS
  else if t = 0x23 then .ok .IN
  else if t = 0x24 then .ok .PUTSP
  else if t = 0x25 then .ok .HALT
  else .error .invalidTrap

/-- The `Opcode::TRAP` arm's dispatch on the decoded trap. -/
def execTrap (m : Machine) : Trap → Except Err Machine
  | .GETC =>
    -- `registers[R0] = stdin byte` (an `unwrap` aborts on end of input)
    match m.input with
    | [] => .error .inputExhausted
    | b :: rest => pure { m with regs := setReg m.regs 0 b, input := rest }
  | .OUT =>
    -- `print!("{}", registers[R0] as u8 as char)`
    pure { m with output := m.output ++ [m.regs 0 % 256] }
  | .PUTS =>
    match putsLoopF m.mem (memSize + 1) (m.regs 0) with
    | .ok (out, _) => pure { m with output := m.output ++ out }
    | .error e => .error e
  | .IN =>
    match m.input with
    | [] => .error .inputExhausted
    | b :: rest =>
      pure { m with output := m.output ++ inPrompt, regs := setReg m.regs 0 b,
                    input := rest }
  | .PUTSP =>
    match putspLoopF m.mem (memSize + 1) (m.regs 0) with
    | .ok out => pure { m with output := m.output ++ out }
    | .error e => .error e
  | .HALT =>
    -- `println!("HALT"); running = false`
    pure { m with output := m.output ++ haltMsg, running := false }

/-- The dispatch `match op.into() { ... }` of the loop body: one arm per
opcode, acting on the fetched instruction word `instr`.  Note the loop
performs NO program-counter increment: `registers[PC]` still holds the
address of `instr` itself when each arm runs. -/
def exec (m : Machine) (instr : Nat) : Opcode → Except Err Machine
  | .BRANCH =>
    let pcOffset := sign_extend (instr &&& 0x1FF) 9
    if (instr >>> 9) &&& m.regs 9 &&& 0x7 ≠ 0 then
      pure { m with regs := setReg m.regs 8 ((m.regs 8 + pcOffset) % wordMod) }
    else
      pure m
  | .ADD =>
    let r0 := (instr >>> 9) &&& 0x7
    let r1 := (instr >>> 6) &&& 0x7
    let v :=
      if (instr >>> 5) &&& 0x1 = 1 then
        (m.regs r1 + sign_extend (instr &&& 0x1F) 5) % wordMod
      else
        (m.regs r1 + m.regs (instr &&& 0x7)) % wordMod
    pure { m with regs := update_flag (setReg m.regs r0 v) r0 }
  | .LOAD =>
    -- index `registers[PC] as usize + pc_offset as usize` is a plain
    -- (non-wrapping) usize sum, then bounds-checked by the array.
    let r0 := (instr >>> 9) &&& 0x7
    let pcOffset := sign_extend (instr &&& 0x1FF) 9
    match readMem m.mem (m.regs 8 + pcOffset) with
    | .ok v => pure { m with regs := update_flag (setReg m.regs r0 v) r0 }
    | .error e => .error e
  | .STORE =>
    let r0 := (instr >>> 9) &&& 0x7
    let pcOffset := sign_extend (instr &&& 0x1FF) 9
    match writeMem m.mem (m.regs 8 + pcOffset) (m.regs r0) with
    | .ok mem1 => pure { m with mem := mem1 }
    | .error e => .error e
  | .JUMPR =>
    -- `registers[R7] = registers[PC]` happens first, then the jump.
    let regs1 := setReg m.regs 7 (m.regs 8)
    let pcOffset := sign_extend (instr &&& 0x7FF) 11
    if (instr >>> 11) &&& 1 ≠ 0 then
      pure { m with regs := setReg regs1 8 ((regs1 8 + pcOffset) % wordMod) }
    else
      pure { m with regs := setReg regs1 8 (regs1 ((instr >>> 6) &&& 0x7)) }
  | .AND =>
    let r0 := (instr >>> 9) &&& 0x7
    let r1 := (instr >>> 6) &&& 0x7
    let v :=
      if (instr >>> 5) &&& 0x1 = 1 then
        m.regs r1 &&& sign_extend (instr &&& 0x1F) 5
      else
        m.regs r1 &&& m.regs (instr &&& 0x7)
    pure { m with regs := update_flag (setReg m.regs r0 v) r0 }
  | .LOADR =>
    let r0 := (instr >>> 9) &&& 0x7
    let base := (instr >>> 6) &&& 0x7
    let offset := sign_extend (instr &&& 0x3F) 6
    match readMem m.mem (m.regs base + offset) with
    | .ok v => pure { m with regs := update_flag (setReg m.regs r0 v) r0 }
    | .error e => .error e
  | .STORER =>
    let r0 := (instr >>> 9) &&& 0x7
    let base := (instr >>> 6) &&& 0x7
    let offset := sign_extend (instr &&& 0x3F) 6
    match writeMem m.mem (m.regs base + offset) (m.regs r0) with
    | .ok mem1 => pure { m with mem := mem1 }
    | .error e => .error e
  | .RTI => .error .illegalOpcode
  | .NOT =>
    -- `registers[r0] = !registers[r1]` (bitwise 16-bit complement)
    let r0 := (instr >>> 9) &&& 0x7
    let r1 := (instr >>> 6) &&& 0x7
    pure { m with regs := update_flag (setReg m.regs r0 (m.regs r1 ^^^ 0xFFFF)) r0 }
  | .LOADI =>
    let r0 := (instr >>> 9) &&& 0x7
    let pcOffset := sign_extend (instr &&& 0x1FF) 9
    match readMem m.mem (m.regs 8 + pcOffset) with
    | .ok a =>
      match readMem m.mem a with
      | .ok v => pure { m with regs := update_flag (setReg m.regs r0 v) r0 }
      | .error e => .error e
    | .error e => .error e
  | .STOREI =>
    let r0 := (instr >>> 9) &&& 0x7
    let pcOffset := sign_extend (instr &&& 0x1FF) 9
    match readMem m.mem (m.regs 8 + pcOffset) with
    | .ok a =>
      match writeMem m.mem a (m.regs r0) with
      | .ok mem1 => pure { m with mem := mem1 }
      | .error e => .error e
    | .error e => .error e
  | .JUMP =>
    pure { m with regs := setReg m.regs 8 (m.regs ((instr >>> 6) &&& 0x7)) }
  | .RES => .error .illegalOpcode
  | .LEA =>
    -- `registers[r0] = registers[PC] + pc_offset` is a u16 (wrapping) sum
    let r0 := (instr >>> 9) &&& 0x7
    let pcOffset := sign_extend (instr &&& 0x1FF) 9
    pure { m with regs := update_flag (setReg m.regs r0 ((m.regs 8 + pcOffset) % wordMod)) r0 }
  | .TRAP =>
    match trapOfNat (instr &&& 0xFF) with
    | .ok t => execTrap m t
    | .error e => .error e

/-- One iteration of the `while running` loop: fetch
`instr = memory[registers[PC]]` (the source performs NO program-counter
increment anywhere in the loop), decode `op = instr >> 12` through
`From<u16> for Opcode`, and dispatch. -/
def step (m : Machine) : Except Err Machine := do
  let instr ← readMem m.mem (m.regs 8)
  let op ← opcodeOfNat (instr >>> 12)
  exec m instr op

/-- The `while running` loop, with fuel bounding the number of
iterations (the source loop has no built-in bound). -/
def run : Nat → Machine → Except Err Machine
  | fuel, m =>
    if m.running then
      match fuel with
      | 0 => .ok m
      | n + 1 =>
        match step m with
        | .ok m' => run n m'
        | .error e => .error e
    else .ok m

/-- The state after a successful `step`; unchanged on an abort. -/
def afterStep (m : Machine) : Machine :=
  match step m with
  | .ok m' => m'
  | .error _ => m

/-- `true` iff `step` succeeds (no abort). -/
def stepOk (m : Machine) : Bool :=
  match step m with
  | .ok _ => true
  | .error _ => false

/-- The abort `step` hits, if any. -/
def stepErr (m : Machine) : Option Err :=
  match step m with
  | .ok _ => none
  | .error e => some e

/-! ## Generic helper lemmas -/

theorem bindOk {α β : Type} (a : α) (f : α → Except Err β) :
    (Except.ok a >>= f) = f a := rfl

theorem bindErr {α β : Type} (e : Err) (f : α → Except Err β) :
    ((Except.error e : Except Err α) >>= f) = .error e := rfl

theorem pureOk {α : Type} (a : α) : (pure a : Except Err α) = .ok a := rfl

/-- `update_flag` always leaves one of the three one-hot values in COND. -/
theorem update_flag_cond (regs : Nat → Nat) (r : Nat) :
    (update_flag regs r) 9 = 1 ∨ (update_flag regs r) 9 = 2 ∨
      (update_flag regs r) 9 = 4 := by
  unfold update_flag setReg
  simp only [if_pos rfl]
  cases get_flag (regs r) <;> simp [Flag.toNat]


/-- Characterization of a fetch from an out-of-range program counter. -/
theorem step_pc_oob (m : Machine) (h : ¬ m.regs 8 < memSize) :
    step m = .error .outOfBounds := by
  unfold step readMem
  rw [if_neg h, bindErr]

/-- `step` factors through `exec` once the fetch succeeds and the opcode
nibble decodes. -/
theorem step_exec (m : Machine) (opc : Opcode) (hpc : m.regs 8 < memSize)
    (hdec : opcodeOfNat ((m.mem (m.regs 8)) >>> 12) = .ok opc) :
    step m = exec m (m.mem (m.regs 8)) opc := by
  unfold step readMem
  rw [if_pos hpc, bindOk, hdec, bindOk]

/-! ## C4: sign extension -/

/-- Modelled from the spec's words (the property C4 is measured against):
the result has the bits of `x` below `bit_count` unchanged and bits
`bit_count..15` all equal to bit `bit_count - 1` of `x`. -/
def signExtendSpec (x bit_count : Nat) : Nat :=
  if Nat.testBit x (bit_count - 1) then
    (x % 2 ^ bit_count) ||| (((2 ^ 16 - 1) >>> bit_count) <<< bit_count)
  else
    x % 2 ^ bit_count

/-- C4 (counterexample): the claim quantifies over every 16-bit `x`, but
for `x = 0x20` and `bit_count = 5` (bit 4 of `x` clear, bit 5 set)
`sign_extend` returns `x` unchanged, while the claimed result has bits
`5..15` equal to bit 4, i.e. all zero. -/
theorem c4_counterexample :
    ¬ (sign_extend 0x20 5 = signExtendSpec 0x20 5) := by decide

/-- C4 (amended): for `bit_count` in `1..=15` and `x` with only its low
`bit_count` bits possibly set, `sign_extend` reproduces `x` with bits
`bit_count..15` equal to bit `bit_count - 1` and the lower bits
unchanged. -/
theorem c4_sign_extend (bit_count x : Nat) (h1 : 1 ≤ bit_count)
    (h2 : bit_count ≤ 15) (hx : x < 2 ^ bit_count) :
    sign_extend x bit_count = signExtendSpec x bit_count := by
  have hcond : ((x >>> (bit_count - 1)) &&& 1 = 1) ↔
      Nat.testBit x (bit_count - 1) = true := by
    rw [Nat.and_one_is_mod, Nat.shiftRight_eq_div_pow, Nat.testBit_to_div_mod]
    simp
  have hxmod : x % 2 ^ bit_count = x := Nat.mod_eq_of_lt hx
  have hxhigh : ∀ j, bit_count ≤ j → Nat.testBit x j = false := by
    intro j hj
    exact Nat.testBit_lt_two_pow
      (lt_of_lt_of_le hx (Nat.pow_le_pow_right (by norm_num) hj))
  unfold sign_extend signExtendSpec
  by_cases htb : Nat.testBit x (bit_count - 1) = true
  · rw [if_pos (hcond.mpr htb), if_pos htb, hxmod]
    have hw : wordMod = 2 ^ 16 := by decide
    have hf : (0xFFFF : Nat) = 2 ^ 16 - 1 := by decide
    rw [hw, hf]
    apply Nat.eq_of_testBit_eq
    intro i
    simp only [Nat.testBit_lor, Nat.testBit_mod_two_pow, Nat.testBit_shiftLeft,
      Nat.testBit_shiftRight, Nat.testBit_two_pow_sub_one]
    rcases Nat.lt_or_ge i bit_count with hi | hi
    · simp [show ¬ (i ≥ bit_count) by omega]
    · rw [hxhigh i hi]
      rcases Nat.lt_or_ge i 16 with h16 | h16
      · simp [show i ≥ bit_count from hi, show i < 16 from h16,
          show i - bit_count < 16 by omega, show bit_count + (i - bit_count) < 16 by omega]
      · simp [show i ≥ bit_count from hi, show ¬ (i < 16) by omega,
          show ¬ (bit_count + (i - bit_count) < 16) by omega]
  · rw [if_neg (fun hc => htb (hcond.mp hc)), if_neg htb, hxmod]

/-- C4 (witness): the amended theorem at `x = 0x15`, `bit_count = 5`. -/
theorem c4_witness :
    1 ≤ 5 ∧ 5 ≤ 15 ∧ 0x15 < 2 ^ 5 ∧ sign_extend 0x15 5 = signExtendSpec 0x15 5 :=
  ⟨by decide, by decide, by decide,
    c4_sign_extend 5 0x15 (by decide) (by decide) (by decide)⟩

/-! ## C5: condition flags -/

/-- Machine used to witness C5: `ADD R0, R0, #1` at address 0. -/
def mC5 : Machine where
  regs := fun _ => 0
  mem := fun a => if a = 0 then 0x1021 else 0
  running := true
  input := []
  output := []

/-- C5: `get_flag` classifies a 16-bit value as ZERO iff it is zero,
NEGATIVE iff it is nonzero with bit 15 set, POSITIVE otherwise; and
after a successful step of any flag-updating instruction (ADD, AND,
NOT, LOAD, LOADI, LOADR, LEA — opcode nibbles 1, 5, 9, 2, 10, 6, 14)
the COND register holds exactly one of the three one-hot values
1, 2, 4. -/
theorem c5_flags :
    (∀ v, v < wordMod →
      ((get_flag v = .ZERO ↔ v = 0) ∧
       (get_flag v = .NEGATIVE ↔ (v ≠ 0 ∧ Nat.testBit v 15 = true)) ∧
       (get_flag v = .POSITIVE ↔ (v ≠ 0 ∧ Nat.testBit v 15 = false)))) ∧
    (∀ (m m' : Machine), step m = .ok m' →
      ((m.mem (m.regs 8)) >>> 12 = 1 ∨ (m.mem (m.regs 8)) >>> 12 = 5 ∨
       (m.mem (m.regs 8)) >>> 12 = 9 ∨ (m.mem (m.regs 8)) >>> 12 = 2 ∨
       (m.mem (m.regs 8)) >>> 12 = 10 ∨ (m.mem (m.regs 8)) >>> 12 = 6 ∨
       (m.mem (m.regs 8)) >>> 12 = 14) →
      (m'.regs 9 = 1 ∨ m'.regs 9 = 2 ∨ m'.regs 9 = 4)) := by
  constructor
  · intro v hv
    have hsr : v >>> 15 = v / 2 ^ 15 := Nat.shiftRight_eq_div_pow v 15
    have htb : Nat.testBit v 15 = decide (v / 2 ^ 15 % 2 = 1) :=
      Nat.testBit_to_div_mod
    have hvlt : v / 2 ^ 15 < 2 := by
      have h2 : wordMod = 2 ^ 15 * 2 := by decide
      omega
    unfold get_flag
    split_ifs with hz hneg
    · subst hz
      exact ⟨by simp, by simp, by simp⟩
    · have hd : v / 2 ^ 15 = 1 := by omega
      refine ⟨by simp [hz], ?_, ?_⟩
      · simp [hz, htb]
        omega
      · simp [htb]
        omega
    · have hd : v / 2 ^ 15 = 0 := by omega
      refine ⟨by simp [hz], ?_, ?_⟩
      · simp [htb]
        omega
      · simp [hz, htb]
        omega
  · intro m m' hstep hops
    by_cases hpc : m.regs 8 < memSize
    case neg =>
      rw [step_pc_oob m hpc] at hstep
      exact absurd hstep (by simp)
    rcases hops with hop | hop | hop | hop | hop | hop | hop
    · rw [step_exec m .ADD hpc (by rw [hop]; rfl)] at hstep
      simp only [exec, pureOk, Except.ok.injEq] at hstep
      subst hstep
      exact update_flag_cond _ _
    · rw [step_exec m .AND hpc (by rw [hop]; rfl)] at hstep
      simp only [exec, pureOk, Except.ok.injEq] at hstep
      subst hstep
      exact update_flag_cond _ _
    · rw [step_exec m .NOT hpc (by rw [hop]; rfl)] at hstep
      simp only [exec, pureOk, Except.ok.injEq] at hstep
      subst hstep
      exact update_flag_cond _ _
    · rw [step_exec m .LOAD hpc (by rw [hop]; rfl)] at hstep
      simp only [exec, readMem] at hstep
      split at hstep
      · simp only [pureOk, Except.ok.injEq] at hstep
        subst hstep
        exact update_flag_cond _ _
      · simp at hstep
    · rw [step_exec m .LOADI hpc (by rw [hop]; rfl)] at hstep
      simp only [exec, readMem] at hstep
      split at hstep
      · split at hstep
        · simp only [pureOk, Except.ok.injEq] at hstep
          subst hstep
          exact update_flag_cond _ _
        · simp at hstep
      · simp at hstep
    · rw [step_exec m .LOADR hpc (by rw [hop]; rfl)] at hstep
      simp only [exec, readMem] at hstep
      split at hstep
      · simp only [pureOk, Except.ok.injEq] at hstep
        subst hstep
        exact update_flag_cond _ _
      · simp at hstep
    · rw [step_exec m .LEA hpc (by rw [hop]; rfl)] at hstep
      simp only [exec, pureOk, Except.ok.injEq] at hstep
      subst hstep
      exact update_flag_cond _ _

/-- C5 (witness): the classification at `v = 0` and the one-hot COND
invariant after the concrete `ADD R0, R0, #1` step of `mC5`. -/
theorem c5_witness :
    get_flag 0 = Flag.ZERO ∧
      ((afterStep mC5).regs 9 = 1 ∨ (afterStep mC5).regs 9 = 2 ∨
        (afterStep mC5).regs 9 = 4) :=
  ⟨((c5_flags.1 0 (by decide)).1).mpr rfl,
    c5_flags.2 mC5 (afterStep mC5) (by rfl) (by decide)⟩


/-! ## C1: the loop never increments the program counter -/

/-- Machine exhibiting C1: `LOAD R0, #1` (`0x2001`) at address `0x3000`,
with distinct sentinel words at `0x3001` and `0x3002`. -/
def mC1 : Machine where
  regs := fun i => if i = 8 then 0x3000 else 0
  mem := fun a =>
    if a = 0x3000 then 0x2001
    else if a = 0x3001 then 0xAAAA
    else if a = 0x3002 then 0xBBBB
    else 0
  running := true
  input := []
  output := []

/-- C1 (code evaluated at the failing input): the loop body never
increments PC.  Executing `LOAD R0, #1` fetched from `0x3000` loads the
word at `0x3000 + 1 = 0x3001` (relative to the fetched instruction's own
address) and leaves PC at `0x3000`; the claim requires PC to be advanced
to `0x3001` before dispatch, making the load read `0x3002` (`0xBBBB`)
and leaving PC at `0x3001`. -/
theorem c1_pc_not_incremented :
    stepOk mC1 = true ∧
    (afterStep mC1).regs 0 = 0xAAAA ∧
    (afterStep mC1).regs 8 = 0x3000 := by
  refine ⟨rfl, by decide, by decide⟩

/-! ## C2: memory size and address wraparound -/

/-- Machine exhibiting C2: program counter `0x8000`, all memory zero. -/
def mC2 : Machine where
  regs := fun i => if i = 8 then 0x8000 else 0
  mem := fun _ => 0
  running := true
  input := []
  output := []

/-- Machine exhibiting C2's missing wraparound: `LOAD R0, #-1`
(`0x21FF`) at address 0; the effective address is computed as the plain
usize sum `0 + 0xFFFF = 65535`, not wrapped into the array. -/
def mC2b : Machine where
  regs := fun _ => 0
  mem := fun a => if a = 0 then 0x21FF else 0
  running := true
  input := []
  output := []

/-- C2 (code evaluated at the failing input): the memory array has
`1 << (16 - 1) = 32768` entries, not 65536; fetching from PC = `0x8000`
aborts with an out-of-range index, and a `LOAD` whose computed address
is `0xFFFF` aborts instead of wrapping modulo 65536. -/
theorem c2_memory_too_small :
    memSize = 32768 ∧
    ¬ (memSize = 65536) ∧
    stepErr mC2 = some .outOfBounds ∧
    stepErr mC2b = some .outOfBounds := by
  refine ⟨rfl, by decide, rfl, rfl⟩

/-! ## C6: JUMPR stores the un-incremented PC -/

/-- Machine exhibiting C6: `JSR #2` (`0x4802`) at address `0x3000` and
`JUMP R7` (`0xC1C0`) at address `0x3002`. -/
def mC6 : Machine where
  regs := fun i => if i = 8 then 0x3000 else 0
  mem := fun a =>
    if a = 0x3000 then 0x4802
    else if a = 0x3002 then 0xC1C0
    else 0
  running := true
  input := []
  output := []

/-- C6 (code evaluated at the failing input): the subroutine call copies
the by-then-unincremented PC into R7, so R7 receives the call's own
address `0x3000` (not `0x3001`), the PC-relative target is
`0x3000 + 2 = 0x3002` (not `0x3001 + 2`), and a subsequent `JUMP R7`
transfers control back to the call instruction itself at `0x3000`
instead of the instruction after the call. -/
theorem c6_jsr_link_address :
    stepOk mC6 = true ∧
    (afterStep mC6).regs 7 = 0x3000 ∧
    (afterStep mC6).regs 8 = 0x3002 ∧
    (afterStep (afterStep mC6)).regs 8 = 0x3000 := by
  refine ⟨rfl, by decide, by decide, by decide⟩


/-! ## C3: ADD and AND wrap modulo 2^16 -/

/-- Machine used to witness C3: `ADD R0, R0, #1` (`0x1021`) at address 0
with `R0 = 0xFFFF`. -/
def mC3 : Machine where
  regs := fun i => if i = 0 then 0xFFFF else 0
  mem := fun a => if a = 0 then 0x1021 else 0
  running := true
  input := []
  output := []

/-- C3: a fetched ADD (opcode nibble 1) always succeeds and writes
`(sr1 + operand) % 65536` — wrapping, never an abort — into its
destination register, updating COND from the written value; a fetched
AND (nibble 5) always succeeds and writes the bitwise conjunction
(which cannot overflow). -/
theorem c3_add_and_wrap (m : Machine) (instr : Nat)
    (hpc : m.regs 8 < memSize) (hfetch : m.mem (m.regs 8) = instr) :
    (instr >>> 12 = 1 →
      stepOk m = true ∧
      (afterStep m).regs ((instr >>> 9) &&& 0x7) =
        (m.regs ((instr >>> 6) &&& 0x7) +
          (if (instr >>> 5) &&& 0x1 = 1 then sign_extend (instr &&& 0x1F) 5
           else m.regs (instr &&& 0x7))) % wordMod ∧
      (afterStep m).regs 9 =
        (get_flag ((afterStep m).regs ((instr >>> 9) &&& 0x7))).toNat) ∧
    (instr >>> 12 = 5 →
      stepOk m = true ∧
      (afterStep m).regs ((instr >>> 9) &&& 0x7) =
        (m.regs ((instr >>> 6) &&& 0x7) &&&
          (if (instr >>> 5) &&& 0x1 = 1 then sign_extend (instr &&& 0x1F) 5
           else m.regs (instr &&& 0x7))) ∧
      (afterStep m).regs 9 =
        (get_flag ((afterStep m).regs ((instr >>> 9) &&& 0x7))).toNat) := by
  have hr0 : ¬ ((instr >>> 9) &&& 0x7 = 9) := by
    have h7 : (instr >>> 9) &&& 0x7 ≤ 7 := Nat.and_le_right
    omega
  constructor
  · intro hop
    have hs := step_exec m .ADD hpc (by rw [hfetch, hop]; rfl)
    rw [hfetch] at hs
    unfold stepOk afterStep
    rw [hs]
    simp only [exec, pureOk]
    refine ⟨trivial, ?_, ?_⟩ <;> by_cases him : (instr >>> 5) % 2 = 1 <;>
      simp [update_flag, setReg, Nat.and_one_is_mod, him, hr0]
  · intro hop
    have hs := step_exec m .AND hpc (by rw [hfetch, hop]; rfl)
    rw [hfetch] at hs
    unfold stepOk afterStep
    rw [hs]
    simp only [exec, pureOk]
    refine ⟨trivial, ?_, ?_⟩ <;> by_cases him : (instr >>> 5) % 2 = 1 <;>
      simp [update_flag, setReg, Nat.and_one_is_mod, him, hr0]

/-- C3 (witness): `R0 = 0xFFFF`, `ADD R0, R0, #1` yields `R0 = 0x0000`
with COND = ZERO (one-hot value 2), silently. -/
theorem c3_witness :
    stepOk mC3 = true ∧ (afterStep mC3).regs 0 = 0 ∧
      (afterStep mC3).regs 9 = 2 := by
  have h := (c3_add_and_wrap mC3 0x1021 (by decide) rfl).1 (by decide)
  refine ⟨h.1, ?_, ?_⟩
  · exact h.2.1.trans (by decide)
  · have h0 : (afterStep mC3).regs 0 = 0 := h.2.1.trans (by decide)
    calc (afterStep mC3).regs 9
        = (get_flag ((afterStep mC3).regs 0)).toNat := h.2.2
      _ = 2 := by rw [h0]; rfl


/-! ## C7: the PUTS trap -/

/-- The PUTS loop on a region whose first zero word is at `i + n`:
it emits the low bytes of the `n` nonzero words and reads exactly the
addresses `i, i+1, ..., i+n`. -/
theorem putsLoopF_spec (mem : Nat → Nat) (n : Nat) :
    ∀ (i fuel : Nat), i + n < memSize → n < fuel →
    (∀ k, k < n → mem (i + k) ≠ 0) → mem (i + n) = 0 →
    putsLoopF mem fuel i =
      .ok ((List.range n).map (fun k => mem (i + k) % 256),
           (List.range (n + 1)).map (fun k => i + k)) := by
  induction n with
  | zero =>
    intro i fuel hb hfuel hnz hz
    cases fuel with
    | zero => omega
    | succ f =>
      unfold putsLoopF
      rw [if_pos (by omega), if_pos (by simpa using hz)]
      simp [show List.range 1 = [0] from rfl]
  | succ n ih =>
    intro i fuel hb hfuel hnz hz
    cases fuel with
    | zero => omega
    | succ f =>
      have hnz0 : ¬ (mem i = 0) := by simpa using hnz 0 (by omega)
      have hrec := ih (i + 1) f (by omega) (by omega)
        (fun k hk => by
          have h := hnz (k + 1) (by omega)
          rwa [show i + (k + 1) = i + 1 + k by omega] at h)
        (by rwa [show i + (n + 1) = i + 1 + n by omega] at hz)
      unfold putsLoopF
      rw [if_pos (by omega), if_neg hnz0, hrec]
      have hout : (List.range (n + 1)).map (fun k => mem (i + k) % 256) =
          (mem i % 256) :: (List.range n).map (fun k => mem (i + 1 + k) % 256) := by
        rw [List.range_succ_eq_map, List.map_cons, List.map_map]
        refine congrArg₂ _ (by simp) (List.map_congr_left ?_)
        intro k _
        simp only [Function.comp]
        rw [show i + (k + 1) = i + 1 + k by omega]
      have hreads : (List.range (n + 1 + 1)).map (fun k => i + k) =
          i :: (List.range (n + 1)).map (fun k => i + 1 + k) := by
        rw [List.range_succ_eq_map, List.map_cons, List.map_map]
        refine congrArg₂ _ (by simp) (List.map_congr_left ?_)
        intro k _
        simp only [Function.comp]
        rw [show i + (k + 1) = i + 1 + k by omega]
      rw [hout, hreads]

/-- Machine used to witness C7: `TRAP 0x22` at address 0 with
`R0 = 0x4000` and memory `[0x4000] = 'H', [0x4001] = 'i', [0x4002] = 0`. -/
def mC7 : Machine where
  regs := fun i => if i = 0 then 0x4000 else 0
  mem := fun a =>
    if a = 0 then 0xF022
    else if a = 0x4000 then 72
    else if a = 0x4001 then 105
    else 0
  running := true
  input := []
  output := []

/-- C7: executing the PUTS trap (vector 0x22) on a memory region whose
first zero word is `n` words past the address in R0 appends exactly the
low bytes of those `n` words to the output, and the loop's reads are
exactly the addresses R0 .. R0+n — never an address beyond the
terminating zero word. -/
theorem c7_puts (m : Machine) (instr n : Nat)
    (hpc : m.regs 8 < memSize) (hfetch : m.mem (m.regs 8) = instr)
    (hop : instr >>> 12 = 15) (hvec : instr &&& 0xFF = 0x22)
    (hb : m.regs 0 + n < memSize)
    (hnz : ∀ k, k < n → m.mem (m.regs 0 + k) ≠ 0)
    (hz : m.mem (m.regs 0 + n) = 0) :
    step m = .ok { m with output := m.output ++
        (List.range n).map (fun k => m.mem (m.regs 0 + k) % 256) } ∧
    putsLoopF m.mem (memSize + 1) (m.regs 0) =
      .ok ((List.range n).map (fun k => m.mem (m.regs 0 + k) % 256),
           (List.range (n + 1)).map (fun k => m.regs 0 + k)) ∧
    (∀ a ∈ (List.range (n + 1)).map (fun k => m.regs 0 + k), a ≤ m.regs 0 + n) := by
  have hputs := putsLoopF_spec m.mem n (m.regs 0) (memSize + 1) hb (by omega) hnz hz
  refine ⟨?_, hputs, ?_⟩
  · have hs := step_exec m .TRAP hpc (by rw [hfetch, hop]; rfl)
    rw [hfetch] at hs
    rw [hs]
    simp only [exec]
    rw [hvec, show trapOfNat 0x22 = .ok Trap.PUTS from rfl]
    simp only [execTrap]
    rw [hputs]
    rfl
  · intro a ha
    simp only [List.mem_map, List.mem_range] at ha
    obtain ⟨k, hk, rfl⟩ := ha
    omega

/-- C7 (witness): PUTS on `[0x4000] = 'H', 'i', 0` emits exactly "Hi"
(bytes 72, 105) and the loop's read trace is exactly
`[0x4000, 0x4001, 0x4002]` — it never reads past the zero at 0x4002. -/
theorem c7_witness :
    (afterStep mC7).output = [72, 105] ∧
    putsLoopF mC7.mem (memSize + 1) (mC7.regs 0) =
      .ok ([72, 105], [0x4000, 0x4001, 0x4002]) := by
  have h := c7_puts mC7 0xF022 2 (by decide) rfl (by decide) (by decide)
    (by decide) (by decide) (by decide)
  constructor
  · unfold afterStep
    rw [h.1]
    rfl
  · rw [h.2.1]
    rfl


/-! ## C8: illegal opcodes and undefined traps abort fatally -/

/-- A single functional memory update changes at most one address. -/
theorem writeFrame (mem : Nat → Nat) (a v j k : Nat)
    (hj : (fun x => if x = a then v else mem x) j ≠ mem j)
    (hk : (fun x => if x = a then v else mem x) k ≠ mem k) : j = k := by
  by_cases hja : j = a
  · by_cases hka : k = a
    · rw [hja, hka]
    · exfalso
      apply hk
      simp [hka]
  · exfalso
    apply hj
    simp [hja]

/-- Machine used to witness C8: the RTI opcode word `0x8000` at address 0. -/
def mC8 : Machine where
  regs := fun _ => 0
  mem := fun a => if a = 0 then 0x8000 else 0
  running := true
  input := []
  output := []

/-- Machine used to witness C8: `TRAP 0xFF` (`0xF0FF`) at address 0. -/
def mC8b : Machine where
  regs := fun _ => 0
  mem := fun a => if a = 0 then 0xF0FF else 0
  running := true
  input := []
  output := []

/-- C8: fetching an RTI or RES opcode (nibbles 8 and 13) makes `step`
abort with the illegal-opcode failure; a TRAP whose vector lies outside
`0x20..0x25` aborts with the undefined-trap failure; and any `step`
abort propagates through the running loop unchanged — the loop performs
no further work after it. -/
theorem c8_fatal_aborts (m : Machine) (instr : Nat)
    (hpc : m.regs 8 < memSize) (hfetch : m.mem (m.regs 8) = instr) :
    ((instr >>> 12 = 8 ∨ instr >>> 12 = 13) → step m = .error .illegalOpcode) ∧
    (instr >>> 12 = 15 → ¬ (0x20 ≤ instr &&& 0xFF ∧ instr &&& 0xFF ≤ 0x25) →
      step m = .error .invalidTrap) ∧
    (∀ e fuel, step m = .error e → m.running = true →
      run (fuel + 1) m = .error e) := by
  refine ⟨?_, ?_, ?_⟩
  · rintro (hop | hop)
    · rw [step_exec m .RTI hpc (by rw [hfetch, hop]; rfl)]
      rfl
    · rw [step_exec m .RES hpc (by rw [hfetch, hop]; rfl)]
      rfl
  · intro hop hvec
    rw [step_exec m .TRAP hpc (by rw [hfetch, hop]; rfl), hfetch]
    simp only [exec]
    unfold trapOfNat
    rw [if_neg (by omega), if_neg (by omega), if_neg (by omega),
      if_neg (by omega), if_neg (by omega), if_neg (by omega)]
  · intro e fuel hstep hrun
    unfold run
    rw [if_pos hrun, hstep]

/-- C8 (witness): RTI at PC aborts with the illegal-opcode failure, the
undefined trap vector 0xFF aborts with the undefined-trap failure, and
the loop surfaces the abort. -/
theorem c8_witness :
    step mC8 = .error .illegalOpcode ∧
    step mC8b = .error .invalidTrap ∧
    run 5 mC8 = .error .illegalOpcode := by
  have h := c8_fatal_aborts mC8 0x8000 (by decide) rfl
  have hb := c8_fatal_aborts mC8b 0xF0FF (by decide) rfl
  have h1 := h.1 (Or.inl (by decide))
  refine ⟨h1, hb.2.1 (by decide) (by decide), h.2.2 .illegalOpcode 4 h1 rfl⟩

/-! ## C9: HALT is terminal -/

/-- Machine used to witness C9: `TRAP 0x25` (HALT) at address 0, every
other memory word nonzero (`0x1021`, an ADD instruction). -/
def mC9 : Machine where
  regs := fun _ => 0
  mem := fun a => if a = 0 then 0xF025 else 0x1021
  running := true
  input := []
  output := []

/-- C9: executing the HALT trap (vector 0x25) clears the `running` flag
(emitting the halt notice), and once `running` is false the loop
returns the state unchanged for every fuel bound — no instruction is
ever fetched or executed again, whatever PC points at. -/
theorem c9_halt_terminal (m : Machine) (instr : Nat)
    (hpc : m.regs 8 < memSize) (hfetch : m.mem (m.regs 8) = instr)
    (hop : instr >>> 12 = 15) (hvec : instr &&& 0xFF = 0x25) :
    step m = .ok { m with output := m.output ++ haltMsg, running := false } ∧
    (∀ m2 : Machine, m2.running = false → ∀ fuel, run fuel m2 = .ok m2) := by
  constructor
  · rw [step_exec m .TRAP hpc (by rw [hfetch, hop]; rfl), hfetch]
    simp only [exec]
    rw [hvec, show trapOfNat 0x25 = .ok Trap.HALT from rfl]
    rfl
  · intro m2 h2 fuel
    unfold run
    rw [if_neg (by simp [h2])]

/-- C9 (witness): after HALT the machine is in the terminal state and
running the loop (with PC still pointing at the nonzero word `0xF025`)
changes nothing. -/
theorem c9_witness :
    (afterStep mC9).running = false ∧
    run 3 (afterStep mC9) = .ok (afterStep mC9) := by
  have h := c9_halt_terminal mC9 0xF025 (by decide) rfl (by decide) (by decide)
  have hr : (afterStep mC9).running = false := by
    unfold afterStep
    rw [h.1]
  exact ⟨hr, h.2 (afterStep mC9) hr 3⟩

/-! ## C10: stores leave registers intact and touch one memory word -/

/-- Machine used to witness C10: `STORE R0, #5` (`0x3005`) at address 0
with `R0 = 0x1234`. -/
def mC10 : Machine where
  regs := fun i => if i = 0 then 0x1234 else 0
  mem := fun a => if a = 0 then 0x3005 else 0
  running := true
  input := []
  output := []

/-- C10: a successful step of STORE, STOREI or STORER (opcode nibbles
3, 11, 7) leaves the whole register file — R0..R7, PC and COND — and
the run flag and streams unchanged, and modifies at most one memory
word. -/
theorem c10_store_frame (m m' : Machine) (instr : Nat)
    (hpc : m.regs 8 < memSize) (hfetch : m.mem (m.regs 8) = instr)
    (hop : instr >>> 12 = 3 ∨ instr >>> 12 = 11 ∨ instr >>> 12 = 7)
    (hstep : step m = .ok m') :
    m'.regs = m.regs ∧ m'.running = m.running ∧ m'.input = m.input ∧
    m'.output = m.output ∧
    (∀ j k, m'.mem j ≠ m.mem j → m'.mem k ≠ m.mem k → j = k) := by
  rcases hop with hop | hop | hop
  · rw [step_exec m .STORE hpc (by rw [hfetch, hop]; rfl)] at hstep
    simp only [exec, writeMem] at hstep
    split at hstep
    · rename_i mem1 heq
      simp only [pureOk, Except.ok.injEq] at hstep
      subst hstep
      split at heq
      · simp only [Except.ok.injEq] at heq
        subst heq
        exact ⟨rfl, rfl, rfl, rfl, fun j k hj hk => writeFrame _ _ _ j k hj hk⟩
      · simp at heq
    · simp at hstep
  · rw [step_exec m .STOREI hpc (by rw [hfetch, hop]; rfl)] at hstep
    simp only [exec, readMem, writeMem] at hstep
    split at hstep
    · split at hstep
      · rename_i mem1 heq
        simp only [pureOk, Except.ok.injEq] at hstep
        subst hstep
        split at heq
        · simp only [Except.ok.injEq] at heq
          subst heq
          exact ⟨rfl, rfl, rfl, rfl, fun j k hj hk => writeFrame _ _ _ j k hj hk⟩
        · simp at heq
      · simp at hstep
    · simp at hstep
  · rw [step_exec m .STORER hpc (by rw [hfetch, hop]; rfl)] at hstep
    simp only [exec, writeMem] at hstep
    split at hstep
    · rename_i mem1 heq
      simp only [pureOk, Except.ok.injEq] at hstep
      subst hstep
      split at heq
      · simp only [Except.ok.injEq] at heq
        subst heq
        exact ⟨rfl, rfl, rfl, rfl, fun j k hj hk => writeFrame _ _ _ j k hj hk⟩
      · simp at heq
    · simp at hstep

/-- C10 (witness): the concrete `STORE R0, #5` step leaves PC and the
output stream unchanged. -/
theorem c10_witness :
    (afterStep mC10).regs 8 = mC10.regs 8 ∧
    (afterStep mC10).output = mC10.output := by
  have h := c10_store_frame mC10 (afterStep mC10) 0x3005 (by decide) rfl
    (Or.inl (by decide)) (by rfl)
  exact ⟨congrFun h.1 8, h.2.2.2.1⟩

end LC3
